import Mathlib

/-!
Verification of the chemex relaxation-exchange simulation engine.

Shallow embedding conventions:
* Python floats are modelled as exact rationals (`ℚ`); numpy arrays as
  `List ℚ` or functions out of `Fin n`.
* The structural matrices of the operator bases (module `chemex.bases.ref`,
  selected in `chemex/bases/two_state/ixyzsz.py`) enter each claim only
  through the linear combination that builds the Liouvillian, so they are
  carried as an explicit record of 12x12 rational matrices.
* scipy's `linalg.eig` / `linalg.inv`, the complex exponential `np.exp`, and
  the exchange-induced shift correction `util.calculate_shift_ex_2st`
  (spec section 4.3: an external collaborator, consumed but not specified)
  are modelled as oracle functions bundled in a record and universally
  quantified over.
* The floating constant `2 * pi` is carried as an explicit rational
  parameter `two_pi`; no claim depends on its value.
-/

/-- Complex numbers with rational components, used to model the complex
eigenvalues/eigenvectors returned by `scipy.linalg.eig`. -/
@[ext]
structure CQ where
  re : ℚ
  im : ℚ
  deriving DecidableEq

namespace CQ

instance : Zero CQ := ⟨⟨0, 0⟩⟩
instance : One CQ := ⟨⟨1, 0⟩⟩
instance : Add CQ := ⟨fun a b => ⟨a.re + b.re, a.im + b.im⟩⟩
instance : Mul CQ := ⟨fun a b => ⟨a.re * b.re - a.im * b.im, a.re * b.im + a.im * b.re⟩⟩

instance : AddCommMonoid CQ where
  add_assoc a b c :=
    CQ.ext (by show a.re + b.re + c.re = a.re + (b.re + c.re); ring)
      (by show a.im + b.im + c.im = a.im + (b.im + c.im); ring)
  zero_add a :=
    CQ.ext (by show 0 + a.re = a.re; ring) (by show 0 + a.im = a.im; ring)
  add_zero a :=
    CQ.ext (by show a.re + 0 = a.re; ring) (by show a.im + 0 = a.im; ring)
  add_comm a b :=
    CQ.ext (by show a.re + b.re = b.re + a.re; ring)
      (by show a.im + b.im = b.im + a.im; ring)
  nsmul := nsmulRec

/-- Embedding of a real (`ℚ`-modelled) scalar into `CQ`. -/
def ofRat (q : ℚ) : CQ := ⟨q, 0⟩

end CQ

/-! ## chemex/bases/two_state/ixyzsz.py

The module selects, once and for all, 12 rows/columns out of the reference
full-basis matrices of `chemex.bases.ref`.  Every claim about
`compute_liouvillian` is independent of the numeric entries of those
structural matrices, so they are carried as a record `RefMats` of 12x12
matrices (one per physical term, mirroring the module-level constants
`mat_r2_i_a`, ..., `mat_kba`). -/

/-- A 12x12 rational matrix over the fixed 12-component operator basis. -/
abbrev Mat12 := Fin 12 → Fin 12 → ℚ

/-- The index-selected structural matrices of `ixyzsz.py` (module constants
`mat_r2_i_a` ... `mat_kba`), one per physical term. -/
structure RefMats where
  mat_r2_i_a : Mat12
  mat_r1_i_a : Mat12
  mat_r2a_i_a : Mat12
  mat_r1a_a : Mat12
  mat_omega_i_a : Mat12
  mat_j_a : Mat12
  mat_etaxy_i_a : Mat12
  mat_etaz_i_a : Mat12
  mat_r2_i_b : Mat12
  mat_r1_i_b : Mat12
  mat_r2a_i_b : Mat12
  mat_r1a_b : Mat12
  mat_omega_i_b : Mat12
  mat_j_b : Mat12
  mat_etaxy_i_b : Mat12
  mat_etaz_i_b : Mat12
  mat_omega1x_i : Mat12
  mat_omega1y_i : Mat12
  mat_kab : Mat12
  mat_kba : Mat12

/-- Keyword arguments of `ixyzsz.compute_liouvillian`; every parameter
defaults to `0`, modelling the Python default `=0.0` (an omitted keyword
contributes nothing). -/
structure IxyzszParams where
  pb : ℚ := 0
  kex_ab : ℚ := 0
  r2_i_a : ℚ := 0
  r1_i_a : ℚ := 0
  r2a_i_a : ℚ := 0
  etaxy_i_a : ℚ := 0
  etaz_i_a : ℚ := 0
  omega_i_a : ℚ := 0
  r2_i_b : ℚ := 0
  r1_i_b : ℚ := 0
  r2a_i_b : ℚ := 0
  etaxy_i_b : ℚ := 0
  etaz_i_b : ℚ := 0
  omega_i_b : ℚ := 0
  r1a_a : ℚ := 0
  j_a : ℚ := 0
  r1a_b : ℚ := 0
  j_b : ℚ := 0
  omega1x_i : ℚ := 0
  omega1y_i : ℚ := 0

/-- Embedding of `ixyzsz.compute_liouvillian` (lines 58-103): computes
`pa = 1 - pb`, `kab, kba = kex_ab * [pb, pa]`, then the weighted sum of the
structural matrices, term by term in the source's order. -/
def compute_liouvillian (M : RefMats) (p : IxyzszParams) : Mat12 :=
  let pa := 1 - p.pb
  let kab := p.kex_ab * p.pb
  let kba := p.kex_ab * pa
  fun i j =>
    M.mat_r2_i_a i j * p.r2_i_a +
    M.mat_r2_i_b i j * p.r2_i_b +
    M.mat_r1_i_a i j * p.r1_i_a +
    M.mat_r1_i_b i j * p.r1_i_b +
    M.mat_r2a_i_a i j * p.r2a_i_a +
    M.mat_r2a_i_b i j * p.r2a_i_b +
    M.mat_etaxy_i_a i j * p.etaxy_i_a +
    M.mat_etaxy_i_b i j * p.etaxy_i_b +
    M.mat_etaz_i_a i j * p.etaz_i_a +
    M.mat_etaz_i_b i j * p.etaz_i_b +
    M.mat_omega_i_a i j * p.omega_i_a +
    M.mat_omega_i_b i j * p.omega_i_b +
    M.mat_r1a_a i j * p.r1a_a +
    M.mat_r1a_b i j * p.r1a_b +
    M.mat_j_a i j * p.j_a +
    M.mat_j_b i j * p.j_b +
    M.mat_omega1x_i i j * p.omega1x_i +
    M.mat_omega1y_i i j * p.omega1y_i +
    M.mat_kab i j * kab +
    M.mat_kba i j * kba

/-- Spec-side formula (spec section 4.2, stated in the claim's words): the sum
over all physical terms of (parameter value) x (structural matrix), with
exchange weights `k_AB = k_ex * pB` and `k_BA = k_ex * (1 - pB)`. -/
def liouvillianSpecSum (M : RefMats) (p : IxyzszParams) : Mat12 :=
  fun i j =>
    p.r2_i_a * M.mat_r2_i_a i j + p.r1_i_a * M.mat_r1_i_a i j +
    p.r2a_i_a * M.mat_r2a_i_a i j + p.r1a_a * M.mat_r1a_a i j +
    p.omega_i_a * M.mat_omega_i_a i j + p.j_a * M.mat_j_a i j +
    p.etaxy_i_a * M.mat_etaxy_i_a i j + p.etaz_i_a * M.mat_etaz_i_a i j +
    p.r2_i_b * M.mat_r2_i_b i j + p.r1_i_b * M.mat_r1_i_b i j +
    p.r2a_i_b * M.mat_r2a_i_b i j + p.r1a_b * M.mat_r1a_b i j +
    p.omega_i_b * M.mat_omega_i_b i j + p.j_b * M.mat_j_b i j +
    p.etaxy_i_b * M.mat_etaxy_i_b i j + p.etaz_i_b * M.mat_etaz_i_b i j +
    p.omega1x_i * M.mat_omega1x_i i j + p.omega1y_i * M.mat_omega1y_i i j +
    (p.kex_ab * p.pb) * M.mat_kab i j + (p.kex_ab * (1 - p.pb)) * M.mat_kba i j

/-! ## chemex/experiments/cest/coupled/2st_fast.py

The CEST profile engine.  The spin basis here is the 6-component in-phase
basis `[Ix(a), Iy(a), Iz(a), Ix(b), Iy(b), Iz(b)]` of `chemex.bases.iph_2st`
(not under `src/`; its builder is modelled from the spec below).  scipy's
numerics are oracle parameters. -/

/-- A 6x6 rational matrix over the in-phase two-state basis. -/
abbrev Mat6 := Fin 6 → Fin 6 → ℚ

/-- A 6x6 complex matrix (eigenvector matrices). -/
abbrev CMat6 := Fin 6 → Fin 6 → CQ

/-- Structural matrices of the in-phase two-state basis (module constants of
`chemex.bases.iph_2st`, one per physical term of its Liouvillian). -/
structure IphMats where
  mat_lambda_i_a : Mat6
  mat_rho_i_a : Mat6
  mat_omega_i_a : Mat6
  mat_lambda_i_b : Mat6
  mat_rho_i_b : Mat6
  mat_omega_i_b : Mat6
  mat_omega1x_i : Mat6
  mat_kab : Mat6
  mat_kba : Mat6

/-- Modelled from the spec: `chemex.bases.iph_2st.compute_liouvillian` is not
under `src/` (only its caller `2st_fast.py` is).  Per spec section 4.2 the
builder converts `pb`, `kex_ab` into `k_AB = k_ex * pB`,
`k_BA = k_ex * (1 - pB)` and forms the weighted sum of the structural
matrices over every term present (transverse/longitudinal relaxation, shift
and RF-field terms per state, plus the two exchange matrices). -/
def iph_compute_liouvillian (M : IphMats)
    (pb kex_ab lambda_i_a rho_i_a omega_i_a lambda_i_b rho_i_b omega_i_b
      omega1x_i : ℚ) : Mat6 :=
  let pa := 1 - pb
  let kab := kex_ab * pb
  let kba := kex_ab * pa
  fun i j =>
    M.mat_lambda_i_a i j * lambda_i_a +
    M.mat_rho_i_a i j * rho_i_a +
    M.mat_omega_i_a i j * omega_i_a +
    M.mat_lambda_i_b i j * lambda_i_b +
    M.mat_rho_i_b i j * rho_i_b +
    M.mat_omega_i_b i j * omega_i_b +
    M.mat_omega1x_i i j * omega1x_i +
    M.mat_kab i j * kab +
    M.mat_kba i j * kba

/-- Oracle bundle for the numerical collaborators consumed by
`_calculate_profile`: the exchange-induced shift correction
`util.calculate_shift_ex_2st` (spec section 4.3, consumed but not specified),
`scipy.linalg.eig` (eigenvalues and right eigenvector matrix),
`scipy.linalg.inv`, and the complex exponential `np.exp`.  Every theorem
below holds for every choice of these oracles. -/
structure NumOracles where
  shift_ex : ℚ → ℚ → ℚ → ℚ → ℚ → ℚ × ℚ
  eig : Mat6 → (Fin 6 → CQ) × CMat6
  inv : CMat6 → CMat6
  cexp : CQ → CQ

/-- The seven physical parameters consumed by
`Profile._calculate_profile` (in its keyword order). -/
structure CestParams where
  pb : ℚ
  kex_ab : ℚ
  dw_i_ab : ℚ
  rho_i_a : ℚ
  lambda_i_a : ℚ
  dlambda_i_ab : ℚ
  cs_i_a : ℚ

/-- The state of a `2st_fast.Profile` instance: the fields assigned by
`__init__` that the engine reads or mutates.  `ppm_to_rads` and `multiplet`
are derived in `__init__` from external constant tables. -/
structure Profile where
  profile_name : String
  b1_offsets : List ℚ
  val : List ℚ
  err : List ℚ
  h_larmor_frq : ℚ
  temperature : ℚ
  carrier : ℚ
  b1_frq : ℚ
  time_t1 : ℚ
  experiment_name : String
  on_resonance_filter : ℚ
  ppm_to_rads : ℚ
  multiplet : List (ℚ × ℚ)
  deriving DecidableEq

/-- Elementwise product-sum over three equal-length arrays, modelling numpy's
`sum(f(a, b, c))` with elementwise `f`. -/
def sumZip3 (f : ℚ → ℚ → ℚ → ℚ) : List ℚ → List ℚ → List ℚ → ℚ
  | a :: as, b :: bs, c :: cs => f a b c + sumZip3 f as bs cs
  | _, _, _ => 0

/-- Elementwise product-sum over two equal-length arrays. -/
def sumZip2 (f : ℚ → ℚ → ℚ) : List ℚ → List ℚ → ℚ
  | a :: as, b :: bs => f a b + sumZip2 f as bs
  | _, _ => 0

/-- Elementwise map over three equal-length arrays (numpy elementwise
arithmetic on three arrays). -/
def mapZip3 (f : ℚ → ℚ → ℚ → ℚ) : List ℚ → List ℚ → List ℚ → List ℚ
  | a :: as, b :: bs, c :: cs => f a b c :: mapZip3 f as bs cs
  | _, _, _ => []

/-- Boolean-mask selection `xs[mask]` where the mask is computed by applying
`keep` to the parallel list `offs` (numpy fancy indexing in
`filter_points`). -/
def maskFilter (keep : ℚ → Bool) : List ℚ → List ℚ → List ℚ
  | o :: os, x :: xs =>
      if keep o then x :: maskFilter keep os xs else maskFilter keep os xs
  | _, _ => []

namespace Profile

/-- One multiplet line of the else-branch of `_calculate_profile`
(2st_fast.py lines 170-191): build the Liouvillian at state-A shift
`omega_i_a + j` and state-B shift `omega_i_a + domega_i_ab + j` (with
`rho_i_b = rho_i_a`), eigendecompose it, keep the eigenmodes whose
imaginary part is below `0.9 * omega1x_i` in magnitude (`sl2`), and form
`(vr[[2], sl2] . diag(exp(s[sl2] * time_t1)) . vri[sl2, [2, 5]] . magz_eq)[0, 0]`
with `magz_eq = [[1 - pb], [pb]]`, written with the diagonal matrix
multiplied out. -/
def lineMagz (self : Profile) (M : IphMats) (O : NumOracles) (q : CestParams)
    (domega_i_ab omega1x_i lambda_i_b omega_i_a j : ℚ) : CQ :=
  let liouvillian := iph_compute_liouvillian M q.pb q.kex_ab q.lambda_i_a
    q.rho_i_a (omega_i_a + j) lambda_i_b q.rho_i_a
    (omega_i_a + domega_i_ab + j) omega1x_i
  let sv := O.eig liouvillian
  let s := sv.1
  let vr := sv.2
  let vri := O.inv vr
  let sl2 := (List.finRange 6).filter fun k => decide (|(s k).im| < 9/10 * omega1x_i)
  (sl2.map fun k =>
    vr 2 k * O.cexp (s k * CQ.ofRat self.time_t1) *
      (vri k 2 * CQ.ofRat (1 - q.pb) + vri k 5 * CQ.ofRat q.pb)).sum

/-- Spec-side mode selection (claim C4): an eigenmode is used exactly when
the magnitude of its eigenvalue's imaginary part is strictly smaller than
0.9 times the RF field strength (in the same angular units). -/
def specSelected (s : Fin 6 → CQ) (omega1x_i : ℚ) (k : Fin 6) : Bool :=
  decide (|(s k).im| < 9/10 * omega1x_i)

/-- Spec-side per-line intensity (claim C4): the real part of the state-A
longitudinal row of `V_obs . diag(exp(lambda t)) . V_inv . m0`, written as a
sum over all six eigenmodes in which every non-selected mode contributes
zero. -/
def specLineMagz (self : Profile) (M : IphMats) (O : NumOracles)
    (q : CestParams) (domega_i_ab omega1x_i lambda_i_b omega_i_a j : ℚ) : ℚ :=
  let liouvillian := iph_compute_liouvillian M q.pb q.kex_ab q.lambda_i_a
    q.rho_i_a (omega_i_a + j) lambda_i_b q.rho_i_a
    (omega_i_a + domega_i_ab + j) omega1x_i
  let sv := O.eig liouvillian
  let s := sv.1
  let vr := sv.2
  let vri := O.inv vr
  (((List.finRange 6).map fun k =>
    if specSelected s omega1x_i k then
      vr 2 k * O.cexp (s k * CQ.ofRat self.time_t1) *
        (vri k 2 * CQ.ofRat (1 - q.pb) + vri k 5 * CQ.ofRat q.pb)
    else 0).sum).re

/-- Per-offset body of the loop of `_calculate_profile` (lines 160-193):
offsets at or below the far-off-resonance sentinel `-1.0e+04` short-circuit
to the state-A entry `1 - pb` of the equilibrium magnetization; otherwise
the multiplet lines are accumulated, each weighted by its multiplet
weight, taking the real part of each line's propagated magnetization. -/
def calcOne (self : Profile) (M : IphMats) (O : NumOracles) (q : CestParams)
    (domega_i_ab omega1x_i lambda_i_b b1_offset omega_i_a : ℚ) : ℚ :=
  if b1_offset ≤ -10000 then 1 - q.pb
  else
    self.multiplet.foldl
      (fun magz_a jw =>
        magz_a + jw.2 *
          (self.lineMagz M O q domega_i_ab omega1x_i lambda_i_b omega_i_a
            jw.1).re)
      0

/-- Embedding of `Profile._calculate_profile` (lines 113-195): computes the
offset-dependent state-A shift array, subtracts the exchange-induced shift
correction, and produces one intensity per `b1_offset`. -/
def calcProfile (self : Profile) (two_pi : ℚ) (M : IphMats) (O : NumOracles)
    (q : CestParams) : List ℚ :=
  let domega_i_ab := q.dw_i_ab * self.ppm_to_rads
  let omega1x_i := two_pi * self.b1_frq
  let lambda_i_b := q.lambda_i_a + q.dlambda_i_ab
  let shift_ex := (O.shift_ex q.pb q.kex_ab domega_i_ab q.lambda_i_a
    lambda_i_b).1
  let omega_i_a_array := self.b1_offsets.map fun o =>
    (q.cs_i_a - self.carrier) * self.ppm_to_rads - two_pi * o - shift_ex
  (self.b1_offsets.zip omega_i_a_array).map fun pr =>
    self.calcOne M O q domega_i_ab omega1x_i lambda_i_b pr.1 pr.2

/-- Embedding of `Profile._calculate_scale` (lines 214-221):
`sum(cal * val / err ** 2) / sum((cal / err) ** 2)`. -/
def calcScale (self : Profile) (cal : List ℚ) : ℚ :=
  sumZip3 (fun c v e => c * v / e ^ 2) cal self.val self.err /
    sumZip2 (fun c e => (c / e) ^ 2) cal self.err

/-- Embedding of `Profile.calculate_profile` (lines 197-212) as explicit
state passing: computes the raw profile at the stored offsets, the scale
factor against the stored data, then (when an alternative `b1_offsets`
array is supplied) temporarily swaps it in, recomputes, and restores the
original offsets.  Returns the scaled values together with the final
instance state. -/
def calculate_profile (self : Profile) (two_pi : ℚ) (M : IphMats)
    (O : NumOracles) (q : CestParams) (b1_offsets : Option (List ℚ)) :
    List ℚ × Profile :=
  let values := self.calcProfile two_pi M O q
  let scale := self.calcScale values
  match b1_offsets with
  | none => (values.map fun v => v * scale, self)
  | some bo =>
      let self2 := { self with b1_offsets := bo }
      let values2 := self2.calcProfile two_pi M O q
      let self3 := { self2 with b1_offsets := self.b1_offsets }
      (values2.map fun v => v * scale, self3)

/-- Embedding of `Profile.calculate_residuals` (lines 223-230):
`(val - calculate_profile(params)) / err` elementwise. -/
def calculate_residuals (self : Profile) (two_pi : ℚ) (M : IphMats)
    (O : NumOracles) (q : CestParams) : List ℚ :=
  let values := (self.calculate_profile two_pi M O q none).1
  mapZip3 (fun v c e => (v - c) / e) self.val values self.err

/-- The scaling-and-residual pipeline of `calculate_profile` /
`calculate_residuals` applied to a given raw simulated array `cal`: the
scale is `_calculate_scale cal`, the returned values are `cal * scale`, and
the residuals are `(val - cal * scale) / err` elementwise (claim C5 feeds
`cal := self.val`). -/
def residualsWith (self : Profile) (cal : List ℚ) : List ℚ :=
  let scale := self.calcScale cal
  mapZip3 (fun v c e => (v - c * scale) / e) self.val cal self.err

/-- The weighted sum-of-squares fit objective
`sum(((val - x * cal) / err) ** 2)` whose closed-form minimizer
`_calculate_scale` claims to compute (spec section 8). -/
def wsumsq (self : Profile) (cal : List ℚ) (x : ℚ) : ℚ :=
  sumZip3 (fun c v e => ((v - x * c) / e) ^ 2) cal self.val self.err

/-- Embedding of `Profile.filter_points` (lines 239-255): computes
`nu_offsets = (cs - carrier) * ppm_to_rads / (2 pi) - b1_offsets`, keeps the
points with `|nu_offsets| > on_resonance_filter * 0.5`, and overwrites the
stored `b1_offsets`, `val` and `err` arrays with the retained points. -/
def filter_points (self : Profile) (two_pi cs : ℚ) : Profile :=
  let keep : ℚ → Bool := fun b1_offset =>
    decide (|(cs - self.carrier) * self.ppm_to_rads / two_pi - b1_offset| >
      self.on_resonance_filter * (1/2))
  { self with
    b1_offsets := self.b1_offsets.filter keep
    val := maskFilter keep self.b1_offsets self.val
    err := maskFilter keep self.b1_offsets self.err }

end Profile

/-- The `measurements` mapping consumed by `Profile.__init__`. -/
structure Measurements where
  b1_offsets : List ℚ
  intensities : List ℚ
  intensities_err : List ℚ

/-- The `exp_details` mapping consumed by `Profile.__init__`; `none` models
a missing key. -/
structure ExpDetails where
  h_larmor_frq : Option ℚ
  temperature : Option ℚ
  carrier : Option ℚ
  b1_frq : Option ℚ
  time_t1 : Option ℚ
  experiment_name : Option String
  on_resonance_filter : Option ℚ

/-- Modelled from the spec: `base_profile.check_par` is not under `src/`.
Per spec section 7(a), a required experimental parameter that is absent is
surfaced by raising immediately with a descriptive message; a present value
is converted and returned. -/
def check_par (x : Option α) (name : String) : Except String α :=
  match x with
  | some v => Except.ok v
  | none => Except.error ("missing experimental parameter: " ++ name)

/-- Embedding of `Profile.__init__` (lines 51-94): stores the measurement
arrays as given (without any length validation), checks the five required
experimental details plus `experiment_name` through `check_par`, defaults
`on_resonance_filter` to `0.0`, and derives `ppm_to_rads` and `multiplet`
from the external constants collaborator (here passed in as `xi` and
`multiplet`). -/
def Profile.init (two_pi : ℚ) (profile_name : String) (m : Measurements)
    (e : ExpDetails) (xi : ℚ) (multiplet : List (ℚ × ℚ)) :
    Except String Profile := do
  let h_larmor_frq ← check_par e.h_larmor_frq "h_larmor_frq"
  let temperature ← check_par e.temperature "temperature"
  let carrier ← check_par e.carrier "carrier"
  let b1_frq ← check_par e.b1_frq "b1_frq"
  let time_t1 ← check_par e.time_t1 "time_t1"
  let experiment_name ← check_par e.experiment_name "experiment_name"
  let on_resonance_filter := e.on_resonance_filter.getD 0
  pure
    { profile_name := profile_name
      b1_offsets := m.b1_offsets
      val := m.intensities
      err := m.intensities_err
      h_larmor_frq := h_larmor_frq
      temperature := temperature
      carrier := carrier
      b1_frq := b1_frq
      time_t1 := time_t1
      experiment_name := experiment_name
      on_resonance_filter := on_resonance_filter
      ppm_to_rads := h_larmor_frq * two_pi * xi
      multiplet := multiplet }

/-! ### Concrete instances for witnesses -/

/-- All-zero in-phase structural matrices (witness instantiation). -/
def zeroIphMats : IphMats :=
  ⟨fun _ _ => 0, fun _ _ => 0, fun _ _ => 0, fun _ _ => 0, fun _ _ => 0,
    fun _ _ => 0, fun _ _ => 0, fun _ _ => 0, fun _ _ => 0⟩

/-- A concrete oracle bundle (witness instantiation). -/
def trivOracles : NumOracles where
  shift_ex := fun _ _ _ _ _ => (0, 0)
  eig := fun _ => (fun _ => 0, fun _ _ => 0)
  inv := fun m => m
  cexp := fun z => z

/-- A concrete parameter set (witness instantiation): the default values of
`create_default_parameters` (lines 100-109) with a 2 ppm shift
difference. -/
def sampleParams : CestParams :=
  ⟨1/20, 200, 2, 1, 10, 0, 118⟩

/-- A concrete profile (witness instantiation). -/
def sampleProfile : Profile where
  profile_name := "G23N-H"
  b1_offsets := [-20000, 0, 50]
  val := [19/20, 1/2, 3/5]
  err := [1/100, 1/100, 1/100]
  h_larmor_frq := 800
  temperature := 25
  carrier := 118
  b1_frq := 25
  time_t1 := 1/10
  experiment_name := "cest_13c"
  on_resonance_filter := 0
  ppm_to_rads := 500
  multiplet := [(0, 1)]

/-- A degenerate profile whose measured values are all zero
(counterexample instantiation for claim C5). -/
def allZeroProfile : Profile :=
  { sampleProfile with b1_offsets := [0], val := [0], err := [1] }

/-- Experimental details with every required key present (witness
instantiation for claim C7). -/
def sampleExpDetails : ExpDetails where
  h_larmor_frq := some 800
  temperature := some 25
  carrier := some 118
  b1_frq := some 25
  time_t1 := some (1/10)
  experiment_name := some "cest_13c"
  on_resonance_filter := none

/-- Measurement arrays of three different lengths (counterexample
instantiation for claim C7). -/
def mismatchedMeasurements : Measurements where
  b1_offsets := [0, 50]
  intensities := [1]
  intensities_err := [1/100, 1/100, 1/100]

/-! ## Theorems -/

/-- C1: for every parameter set, `compute_liouvillian` returns the 12x12
matrix equal to the sum over all physical terms of (parameter value) times
(that term's structural matrix), with exchange weights
`k_AB = k_ex * pB` and `k_BA = k_ex * (1 - pB)`; a call with every
parameter omitted (all defaults, i.e. all values `0.0`) returns the zero
matrix; and the result is (affine-)linear in each individual parameter:
changing any single parameter from `y` to `x` changes every entry by
`(x - y)` times that parameter's structural-matrix entry (for `pb` and
`kex_ab`, by the corresponding derivative of the exchange weights). -/
theorem compute_liouvillian_is_weighted_sum (M : RefMats) (p : IxyzszParams) :
    (∀ i j, compute_liouvillian M p i j = liouvillianSpecSum M p i j) ∧
    (∀ i j, compute_liouvillian M {} i j = 0) ∧
    (∀ x y i j, compute_liouvillian M { p with pb := x } i j -
        compute_liouvillian M { p with pb := y } i j =
      (x - y) * (p.kex_ab * (M.mat_kab i j - M.mat_kba i j))) ∧
    (∀ x y i j, compute_liouvillian M { p with kex_ab := x } i j -
        compute_liouvillian M { p with kex_ab := y } i j =
      (x - y) * (p.pb * M.mat_kab i j + (1 - p.pb) * M.mat_kba i j)) ∧
    (∀ x y i j, compute_liouvillian M { p with r2_i_a := x } i j -
        compute_liouvillian M { p with r2_i_a := y } i j =
      (x - y) * M.mat_r2_i_a i j) ∧
    (∀ x y i j, compute_liouvillian M { p with r1_i_a := x } i j -
        compute_liouvillian M { p with r1_i_a := y } i j =
      (x - y) * M.mat_r1_i_a i j) ∧
    (∀ x y i j, compute_liouvillian M { p with r2a_i_a := x } i j -
        compute_liouvillian M { p with r2a_i_a := y } i j =
      (x - y) * M.mat_r2a_i_a i j) ∧
    (∀ x y i j, compute_liouvillian M { p with etaxy_i_a := x } i j -
        compute_liouvillian M { p with etaxy_i_a := y } i j =
      (x - y) * M.mat_etaxy_i_a i j) ∧
    (∀ x y i j, compute_liouvillian M { p with etaz_i_a := x } i j -
        compute_liouvillian M { p with etaz_i_a := y } i j =
      (x - y) * M.mat_etaz_i_a i j) ∧
    (∀ x y i j, compute_liouvillian M { p with omega_i_a := x } i j -
        compute_liouvillian M { p with omega_i_a := y } i j =
      (x - y) * M.mat_omega_i_a i j) ∧
    (∀ x y i j, compute_liouvillian M { p with r2_i_b := x } i j -
        compute_liouvillian M { p with r2_i_b := y } i j =
      (x - y) * M.mat_r2_i_b i j) ∧
    (∀ x y i j, compute_liouvillian M { p with r1_i_b := x } i j -
        compute_liouvillian M { p with r1_i_b := y } i j =
      (x - y) * M.mat_r1_i_b i j) ∧
    (∀ x y i j, compute_liouvillian M { p with r2a_i_b := x } i j -
        compute_liouvillian M { p with r2a_i_b := y } i j =
      (x - y) * M.mat_r2a_i_b i j) ∧
    (∀ x y i j, compute_liouvillian M { p with etaxy_i_b := x } i j -
        compute_liouvillian M { p with etaxy_i_b := y } i j =
      (x - y) * M.mat_etaxy_i_b i j) ∧
    (∀ x y i j, compute_liouvillian M { p with etaz_i_b := x } i j -
        compute_liouvillian M { p with etaz_i_b := y } i j =
      (x - y) * M.mat_etaz_i_b i j) ∧
    (∀ x y i j, compute_liouvillian M { p with omega_i_b := x } i j -
        compute_liouvillian M { p with omega_i_b := y } i j =
      (x - y) * M.mat_omega_i_b i j) ∧
    (∀ x y i j, compute_liouvillian M { p with r1a_a := x } i j -
        compute_liouvillian M { p with r1a_a := y } i j =
      (x - y) * M.mat_r1a_a i j) ∧
    (∀ x y i j, compute_liouvillian M { p with j_a := x } i j -
        compute_liouvillian M { p with j_a := y } i j =
      (x - y) * M.mat_j_a i j) ∧
    (∀ x y i j, compute_liouvillian M { p with r1a_b := x } i j -
        compute_liouvillian M { p with r1a_b := y } i j =
      (x - y) * M.mat_r1a_b i j) ∧
    (∀ x y i j, compute_liouvillian M { p with j_b := x } i j -
        compute_liouvillian M { p with j_b := y } i j =
      (x - y) * M.mat_j_b i j) ∧
    (∀ x y i j, compute_liouvillian M { p with omega1x_i := x } i j -
        compute_liouvillian M { p with omega1x_i := y } i j =
      (x - y) * M.mat_omega1x_i i j) ∧
    (∀ x y i j, compute_liouvillian M { p with omega1y_i := x } i j -
        compute_liouvillian M { p with omega1y_i := y } i j =
      (x - y) * M.mat_omega1y_i i j) := by
  refine ⟨?_, ?_, ?_, ?_, ?_, ?_, ?_, ?_, ?_, ?_, ?_, ?_, ?_, ?_, ?_, ?_, ?_,
    ?_, ?_, ?_, ?_, ?_⟩ <;>
  · intros
    simp only [compute_liouvillian, liouvillianSpecSum]
    ring

theorem zip_self_map {α β : Type} (l : List α) (g : α → β) :
    l.zip (l.map g) = l.map fun o => (o, g o) := by
  induction l with
  | nil => rfl
  | cons a t ih => simp [ih]

theorem getD_map {α β : Type} (l : List α) (F : α → β) (i : ℕ) (d : α)
    (d' : β) (h : i < l.length) : (l.map F).getD i d' = F (l.getD i d) := by
  induction l generalizing i with
  | nil => simp at h
  | cons a t ih =>
    cases i with
    | zero => rfl
    | succ n => simpa using ih n (by simpa using h)

theorem Profile.calcProfile_eq_map (self : Profile) (two_pi : ℚ)
    (M : IphMats) (O : NumOracles) (q : CestParams) :
    self.calcProfile two_pi M O q = self.b1_offsets.map fun o =>
      self.calcOne M O q (q.dw_i_ab * self.ppm_to_rads)
        (two_pi * self.b1_frq) (q.lambda_i_a + q.dlambda_i_ab) o
        ((q.cs_i_a - self.carrier) * self.ppm_to_rads - two_pi * o -
          (O.shift_ex q.pb q.kex_ab (q.dw_i_ab * self.ppm_to_rads)
            q.lambda_i_a (q.lambda_i_a + q.dlambda_i_ab)).1) := by
  simp only [Profile.calcProfile]
  rw [zip_self_map, List.map_map]
  rfl

/-- C8: for every parameter set and every offsets array, the simulated
profile returned by `_calculate_profile` has exactly one (rational, hence
real-valued) intensity per input offset, in the same order: it is the map
of the per-offset computation over `b1_offsets`, and in particular its
length equals the number of input offsets. -/
theorem calcProfile_length_and_order (self : Profile) (two_pi : ℚ)
    (M : IphMats) (O : NumOracles) (q : CestParams) :
    (self.calcProfile two_pi M O q).length = self.b1_offsets.length ∧
    self.calcProfile two_pi M O q = self.b1_offsets.map fun o =>
      self.calcOne M O q (q.dw_i_ab * self.ppm_to_rads)
        (two_pi * self.b1_frq) (q.lambda_i_a + q.dlambda_i_ab) o
        ((q.cs_i_a - self.carrier) * self.ppm_to_rads - two_pi * o -
          (O.shift_ex q.pb q.kex_ab (q.dw_i_ab * self.ppm_to_rads)
            q.lambda_i_a (q.lambda_i_a + q.dlambda_i_ab)).1) :=
  ⟨by rw [Profile.calcProfile_eq_map]; simp,
    Profile.calcProfile_eq_map self two_pi M O q⟩

/-- C2: every offset at or below the far-off-resonance sentinel `-10000`
yields the intensity `1 - pb` (the state-A entry of the equilibrium
magnetization) exactly, for every choice of the numerical oracles (so no
Liouvillian eigendecomposition enters) and independently of every other
parameter. -/
theorem sentinel_offset_gives_equilibrium (self : Profile) (two_pi : ℚ)
    (M : IphMats) (O : NumOracles) (q : CestParams) (i : ℕ)
    (hi : i < self.b1_offsets.length)
    (hs : self.b1_offsets.getD i 0 ≤ -10000) :
    (self.calcProfile two_pi M O q).getD i 0 = 1 - q.pb := by
  rw [Profile.calcProfile_eq_map,
    getD_map self.b1_offsets _ i 0 0 hi]
  simp only [Profile.calcOne, if_pos hs]

theorem sentinel_offset_gives_equilibrium_witness :
    sampleProfile.b1_offsets.getD 0 0 ≤ -10000 ∧
    (sampleProfile.calcProfile 6 zeroIphMats trivOracles
      sampleParams).getD 0 0 = 1 - sampleParams.pb :=
  ⟨by decide,
    sentinel_offset_gives_equilibrium sampleProfile 6 zeroIphMats
      trivOracles sampleParams 0 (by decide) (by decide)⟩

theorem sum_filter_map {α M : Type} [AddCommMonoid M] (p : α → Bool)
    (f : α → M) (l : List α) :
    ((l.filter p).map f).sum = (l.map fun a => if p a then f a else 0).sum := by
  induction l with
  | nil => rfl
  | cons a t ih =>
    by_cases h : p a = true
    · simp [List.filter_cons, h, ih]
    · simp [List.filter_cons, h, ih]

theorem Profile.lineMagz_re_eq_spec (self : Profile) (M : IphMats)
    (O : NumOracles) (q : CestParams)
    (domega_i_ab omega1x_i lambda_i_b omega_i_a j : ℚ) :
    (self.lineMagz M O q domega_i_ab omega1x_i lambda_i_b omega_i_a j).re =
      self.specLineMagz M O q domega_i_ab omega1x_i lambda_i_b omega_i_a
        j := by
  simp only [Profile.lineMagz, Profile.specLineMagz, Profile.specSelected]
  rw [sum_filter_map]

/-- C4: in the per-offset propagation step (the non-sentinel branch), the
set of eigenmodes used is exactly the set of modes whose eigenvalue's
imaginary part has magnitude strictly smaller than `0.9` times the RF field
strength `omega1x_i` (in the same angular units), and the intensity is the
multiplet-weight-weighted sum over lines of the real part of the state-A
longitudinal row of `V_obs . diag(exp(s t)) . V_inv . m0`, summed over the
selected modes (non-selected modes contributing zero). -/
theorem eigenmode_selection_and_propagation (self : Profile) (M : IphMats)
    (O : NumOracles) (q : CestParams)
    (domega_i_ab omega1x_i lambda_i_b b1_offset omega_i_a : ℚ)
    (hoff : -10000 < b1_offset) :
    (∀ (s : Fin 6 → CQ) (k : Fin 6),
      k ∈ (List.finRange 6).filter
          (fun m => decide (|(s m).im| < 9/10 * omega1x_i)) ↔
        Profile.specSelected s omega1x_i k = true) ∧
    self.calcOne M O q domega_i_ab omega1x_i lambda_i_b b1_offset
        omega_i_a =
      self.multiplet.foldl
        (fun magz_a jw =>
          magz_a + jw.2 *
            self.specLineMagz M O q domega_i_ab omega1x_i lambda_i_b
              omega_i_a jw.1)
        0 := by
  constructor
  · intro s k
    simp [List.mem_filter, Profile.specSelected]
  · rw [Profile.calcOne, if_neg (not_le.mpr hoff)]
    have hfun :
        (fun (magz_a : ℚ) (jw : ℚ × ℚ) =>
          magz_a + jw.2 *
            (self.lineMagz M O q domega_i_ab omega1x_i lambda_i_b omega_i_a
              jw.1).re) =
        fun magz_a jw =>
          magz_a + jw.2 *
            self.specLineMagz M O q domega_i_ab omega1x_i lambda_i_b
              omega_i_a jw.1 := by
      funext magz_a jw
      rw [Profile.lineMagz_re_eq_spec]
    rw [hfun]

theorem eigenmode_selection_and_propagation_witness :
    (-10000 : ℚ) < 0 ∧
    sampleProfile.calcOne zeroIphMats trivOracles sampleParams 1000 157 12
        0 0 =
      sampleProfile.multiplet.foldl
        (fun magz_a jw =>
          magz_a + jw.2 *
            sampleProfile.specLineMagz zeroIphMats trivOracles sampleParams
              1000 157 12 0 jw.1)
        0 :=
  ⟨by norm_num,
    (eigenmode_selection_and_propagation sampleProfile zeroIphMats
      trivOracles sampleParams 1000 157 12 0 0 (by norm_num)).2⟩

/-- C9: `calculate_profile` leaves the stored Profile state unchanged:
whether or not an alternative `b1_offsets` array is supplied (in which case
it is temporarily swapped in and the original offsets restored), the final
instance state equals the initial one — in particular `b1_offsets`, `val`
and `err` are unchanged. -/
theorem calculate_profile_preserves_state (self : Profile) (two_pi : ℚ)
    (M : IphMats) (O : NumOracles) (q : CestParams)
    (bo : Option (List ℚ)) :
    (self.calculate_profile two_pi M O q bo).2 = self ∧
    (self.calculate_profile two_pi M O q bo).2.b1_offsets =
      self.b1_offsets ∧
    (self.calculate_profile two_pi M O q bo).2.val = self.val ∧
    (self.calculate_profile two_pi M O q bo).2.err = self.err := by
  have h : (self.calculate_profile two_pi M O q bo).2 = self := by
    cases bo <;> rfl
  exact ⟨h, by rw [h], by rw [h], by rw [h]⟩

theorem wsumsq_expand (cal val err : List ℚ) (h1 : cal.length = val.length)
    (h2 : cal.length = err.length) (x : ℚ) :
    sumZip3 (fun c v e => ((v - x * c) / e) ^ 2) cal val err =
      sumZip2 (fun v e => (v / e) ^ 2) val err -
        2 * x * sumZip3 (fun c v e => c * v / e ^ 2) cal val err +
        x ^ 2 * sumZip2 (fun c e => (c / e) ^ 2) cal err := by
  induction cal generalizing val err with
  | nil =>
    cases val with
    | cons a t => simp at h1
    | nil =>
      cases err with
      | cons a t => simp at h2
      | nil => simp [sumZip3, sumZip2]
  | cons c ct ih =>
    cases val with
    | nil => simp at h1
    | cons v vt =>
      cases err with
      | nil => simp at h2
      | cons e et =>
        simp only [sumZip3, sumZip2]
        rw [ih vt et (by simpa using h1) (by simpa using h2)]
        ring

theorem gradient_expand (cal val err : List ℚ) (h1 : cal.length = val.length)
    (h2 : cal.length = err.length) (s : ℚ) :
    sumZip3 (fun c v e => c * (v - s * c) / e ^ 2) cal val err =
      sumZip3 (fun c v e => c * v / e ^ 2) cal val err -
        s * sumZip2 (fun c e => (c / e) ^ 2) cal err := by
  induction cal generalizing val err with
  | nil =>
    cases val with
    | cons a t => simp at h1
    | nil =>
      cases err with
      | cons a t => simp at h2
      | nil => simp [sumZip3, sumZip2]
  | cons c ct ih =>
    cases val with
    | nil => simp at h1
    | cons v vt =>
      cases err with
      | nil => simp at h2
      | cons e et =>
        simp only [sumZip3, sumZip2]
        rw [ih vt et (by simpa using h1) (by simpa using h2)]
        ring

theorem sumZip2_sq_nonneg (cal err : List ℚ) :
    0 ≤ sumZip2 (fun c e => (c / e) ^ 2) cal err := by
  induction cal generalizing err with
  | nil => simp [sumZip2]
  | cons c ct ih =>
    cases err with
    | nil => simp [sumZip2]
    | cons e et =>
      simp only [sumZip2]
      exact add_nonneg (sq_nonneg _) (ih et)

theorem sumZip3_eq_zero_of_denom_zero (cal val err : List ℚ)
    (h : sumZip2 (fun c e => (c / e) ^ 2) cal err = 0) :
    sumZip3 (fun c v e => c * v / e ^ 2) cal val err = 0 := by
  induction cal generalizing val err with
  | nil => rfl
  | cons c ct ih =>
    cases val with
    | nil => rfl
    | cons v vt =>
      cases err with
      | nil => rfl
      | cons e et =>
        simp only [sumZip2] at h
        have hhd : (0:ℚ) ≤ (c / e) ^ 2 := sq_nonneg _
        have htl := sumZip2_sq_nonneg ct et
        have hhd0 : (c / e) ^ 2 = 0 := by linarith
        have htl0 : sumZip2 (fun c e => (c / e) ^ 2) ct et = 0 := by linarith
        have hce : c / e = 0 := by
          exact pow_eq_zero_iff (two_ne_zero) |>.mp hhd0
        simp only [sumZip3]
        have hterm : c * v / e ^ 2 = (c / e) * (v / e) := by ring
        rw [hterm, hce, ih vt et htl0]
        ring

/-- C3: the computed scale factor equals
`sum(cal * val / err ** 2) / sum((cal / err) ** 2)`, the derivative of the
weighted sum of squares `sum(((val - x * cal) / err) ** 2)` with respect to
the scale vanishes at it (the sum `sum(cal * (val - scale * cal) / err ** 2)`,
which is `-1/2` times that derivative, is zero), and it is an exact global
minimizer of the weighted sum of squares. -/
theorem calcScale_minimizes (self : Profile) (cal : List ℚ)
    (h1 : cal.length = self.val.length)
    (h2 : cal.length = self.err.length)
    (he : ∀ e ∈ self.err, e ≠ 0) :
    self.calcScale cal =
      sumZip3 (fun c v e => c * v / e ^ 2) cal self.val self.err /
        sumZip2 (fun c e => (c / e) ^ 2) cal self.err ∧
    sumZip3 (fun c v e => c * (v - self.calcScale cal * c) / e ^ 2) cal
        self.val self.err = 0 ∧
    ∀ x, self.wsumsq cal (self.calcScale cal) ≤ self.wsumsq cal x := by
  have hform : self.calcScale cal =
      sumZip3 (fun c v e => c * v / e ^ 2) cal self.val self.err /
        sumZip2 (fun c e => (c / e) ^ 2) cal self.err := rfl
  have hDnn := sumZip2_sq_nonneg cal self.err
  refine ⟨hform, ?_, ?_⟩
  · rw [gradient_expand cal self.val self.err h1 h2, hform]
    by_cases hD0 : sumZip2 (fun c e => (c / e) ^ 2) cal self.err = 0
    · rw [hD0, sumZip3_eq_zero_of_denom_zero cal self.val self.err hD0]
      ring
    · rw [div_mul_cancel₀ _ hD0]
      ring
  · intro x
    unfold Profile.wsumsq
    rw [wsumsq_expand cal self.val self.err h1 h2,
      wsumsq_expand cal self.val self.err h1 h2, hform]
    by_cases hD0 : sumZip2 (fun c e => (c / e) ^ 2) cal self.err = 0
    · rw [hD0, sumZip3_eq_zero_of_denom_zero cal self.val self.err hD0]
      simp
    · set D := sumZip2 (fun c e => (c / e) ^ 2) cal self.err with hDdef
      set N := sumZip3 (fun c v e => c * v / e ^ 2) cal self.val self.err
        with hNdef
      set s := N / D with hsdef
      have hND : s * D = N := div_mul_cancel₀ _ hD0
      rw [← hND]
      nlinarith [mul_nonneg hDnn (sq_nonneg (x - s))]

theorem calcScale_minimizes_witness :
    (∀ e ∈ sampleProfile.err, e ≠ 0) ∧
    sumZip3
        (fun c v e =>
          c * (v - sampleProfile.calcScale [1, 1, 1] * c) / e ^ 2)
        [1, 1, 1] sampleProfile.val sampleProfile.err = 0 ∧
    sampleProfile.wsumsq [1, 1, 1]
        (sampleProfile.calcScale [1, 1, 1]) ≤
      sampleProfile.wsumsq [1, 1, 1] 1 := by
  have h := calcScale_minimizes sampleProfile [1, 1, 1] rfl rfl
    (by norm_num [sampleProfile])
  exact ⟨by norm_num [sampleProfile], h.2.1, h.2.2 1⟩

/-- C5 counterexample: a Profile whose measured values are all zero.
Feeding its own measured values back in as simulated gives the scale
`0 / 0`, which is not `1` (in the floating-point source it is `nan`), so
the round-trip property fails for this Profile. -/
theorem roundtrip_scale_not_one :
    allZeroProfile.calcScale allZeroProfile.val ≠ 1 := by
  norm_num [allZeroProfile, sampleProfile, Profile.calcScale, sumZip3,
    sumZip2]

theorem sumZip3_self (val err : List ℚ) :
    sumZip3 (fun c v e => c * v / e ^ 2) val val err =
      sumZip2 (fun c e => (c / e) ^ 2) val err := by
  induction val generalizing err with
  | nil => rfl
  | cons v vt ih =>
    cases err with
    | nil => rfl
    | cons e et =>
      simp only [sumZip3, sumZip2]
      rw [ih et]
      ring_nf

theorem sumZip2_sq_pos (val err : List ℚ) (h1 : val.length = err.length)
    (he : ∀ e ∈ err, e ≠ 0) (hv : ∃ v ∈ val, v ≠ 0) :
    0 < sumZip2 (fun c e => (c / e) ^ 2) val err := by
  induction val generalizing err with
  | nil =>
    obtain ⟨v, hv', _⟩ := hv
    simp at hv'
  | cons a t ih =>
    cases err with
    | nil => simp at h1
    | cons e et =>
      simp only [sumZip2]
      obtain ⟨v, hvmem, hvne⟩ := hv
      rcases List.mem_cons.mp hvmem with hcase | hcase
      · have hane : a ≠ 0 := hcase ▸ hvne
        have hd : a / e ≠ 0 :=
          div_ne_zero hane (he e (List.mem_cons_self e et))
        have hp : 0 < (a / e) ^ 2 :=
          lt_of_le_of_ne (sq_nonneg _) (Ne.symm (pow_ne_zero 2 hd))
        have hnn := sumZip2_sq_nonneg t et
        linarith
      · have hpos := ih et (by simpa using h1)
          (fun x hx => he x (List.mem_cons_of_mem _ hx)) ⟨v, hcase, hvne⟩
        have hnn := sq_nonneg (a / e)
        linarith

theorem mapZip3_resid_zero (val err : List ℚ) :
    ∀ r ∈ mapZip3 (fun v c e => (v - c * 1) / e) val val err, r = 0 := by
  induction val generalizing err with
  | nil =>
    intro r hr
    simp [mapZip3] at hr
  | cons a t ih =>
    cases err with
    | nil =>
      intro r hr
      simp [mapZip3] at hr
    | cons e et =>
      intro r hr
      simp only [mapZip3, List.mem_cons] at hr
      rcases hr with hcase | hcase
      · rw [hcase]
        norm_num
      · exact ih et r hcase

/-- C5 (amended): for every Profile with nonzero errors and at least one
nonzero measured value (so the weighted normalizer `sum((val / err) ** 2)`
is nonzero), feeding the Profile's own measured values into the scaling and
residual computation as the simulated values yields scale factor exactly
`1` and an all-zero residual vector.  (Without the nonzero-value condition
the scale is `0 / 0` and the property fails, see the counterexample.) -/
theorem roundtrip_identity (self : Profile)
    (h1 : self.val.length = self.err.length)
    (he : ∀ e ∈ self.err, e ≠ 0)
    (hv : ∃ v ∈ self.val, v ≠ 0) :
    self.calcScale self.val = 1 ∧
    ∀ r ∈ self.residualsWith self.val, r = 0 := by
  have hD := sumZip2_sq_pos self.val self.err h1 he hv
  have hs : self.calcScale self.val = 1 := by
    unfold Profile.calcScale
    rw [sumZip3_self]
    exact div_self (ne_of_gt hD)
  refine ⟨hs, ?_⟩
  unfold Profile.residualsWith
  simp only [hs]
  exact mapZip3_resid_zero self.val self.err

theorem roundtrip_identity_witness :
    sampleProfile.calcScale sampleProfile.val = 1 ∧
    ∀ r ∈ sampleProfile.residualsWith sampleProfile.val, r = 0 :=
  roundtrip_identity sampleProfile rfl (by norm_num [sampleProfile])
    ⟨19/20, by norm_num [sampleProfile], by norm_num⟩

theorem filter_keep_idem (keep : ℚ → Bool) (l : List ℚ) :
    (l.filter keep).filter keep = l.filter keep := by
  induction l with
  | nil => rfl
  | cons a t ih =>
    by_cases hk : keep a = true
    · simp [List.filter_cons, hk, ih]
    · simp [List.filter_cons, hk, ih]

theorem maskFilter_length_le (keep : ℚ → Bool) (os xs : List ℚ) :
    (maskFilter keep os xs).length ≤ xs.length := by
  induction os generalizing xs with
  | nil => simp [maskFilter]
  | cons o ot ih =>
    cases xs with
    | nil => simp [maskFilter]
    | cons x xt =>
      simp only [maskFilter]
      by_cases hk : keep o = true
      · rw [if_pos hk]
        simpa using Nat.succ_le_succ (ih xt)
      · rw [if_neg hk]
        exact Nat.le_succ_of_le (ih xt)

theorem maskFilter_filter (keep : ℚ → Bool) (os xs : List ℚ)
    (h : os.length = xs.length) :
    maskFilter keep (os.filter keep) (maskFilter keep os xs) =
      maskFilter keep os xs := by
  induction os generalizing xs with
  | nil => cases xs <;> simp [maskFilter]
  | cons o ot ih =>
    cases xs with
    | nil => simp at h
    | cons x xt =>
      have h' : ot.length = xt.length := by simpa using h
      by_cases hk : keep o = true
      · simp only [List.filter_cons, hk, if_true, maskFilter, if_pos hk]
        rw [ih xt h']
      · simp only [List.filter_cons, hk, if_false, maskFilter, if_neg hk]
        exact ih xt h'

/-- C6: point filtering is idempotent and never grows the data: applying
`filter_points` a second time with the same resonance position and
exclusion width leaves the Profile unchanged (so it removes no further
points), and one application leaves at most as many retained offsets,
values and errors as before. -/
theorem filter_points_idempotent (self : Profile) (two_pi cs : ℚ)
    (h1 : self.val.length = self.b1_offsets.length)
    (h2 : self.err.length = self.b1_offsets.length) :
    (self.filter_points two_pi cs).filter_points two_pi cs =
      self.filter_points two_pi cs ∧
    (self.filter_points two_pi cs).b1_offsets.length ≤
      self.b1_offsets.length ∧
    (self.filter_points two_pi cs).val.length ≤ self.val.length ∧
    (self.filter_points two_pi cs).err.length ≤ self.err.length := by
  refine ⟨?_, ?_, ?_, ?_⟩
  · simp only [Profile.filter_points, Profile.mk.injEq, and_true, true_and]
    refine ⟨filter_keep_idem _ _, ?_, ?_⟩
    · exact maskFilter_filter _ _ _ h1.symm
    · exact maskFilter_filter _ _ _ h2.symm
  · simp only [Profile.filter_points]
    exact List.length_filter_le _ _
  · simp only [Profile.filter_points]
    exact maskFilter_length_le _ _ _
  · simp only [Profile.filter_points]
    exact maskFilter_length_le _ _ _

theorem filter_points_idempotent_witness :
    (sampleProfile.filter_points 6 118).filter_points 6 118 =
      sampleProfile.filter_points 6 118 ∧
    (sampleProfile.filter_points 6 118).b1_offsets.length ≤
      sampleProfile.b1_offsets.length :=
  have h := filter_points_idempotent sampleProfile 6 118 rfl rfl
  ⟨h.1, h.2.1⟩

/-- C10: with the default zero-width on-resonance filter, a point whose
offset from the (exchange-uncorrected) resonance position is exactly zero
is removed, because a point is retained only when its absolute
offset-from-resonance is strictly greater than half the exclusion width
(here `0`): every retained offset has nonzero offset-from-resonance. -/
theorem zero_width_filter_removes_resonance (self : Profile)
    (two_pi cs : ℚ) (hfil : self.on_resonance_filter = 0) :
    ∀ o ∈ (self.filter_points two_pi cs).b1_offsets,
      (cs - self.carrier) * self.ppm_to_rads / two_pi - o ≠ 0 := by
  intro o ho
  simp only [Profile.filter_points] at ho
  rw [List.mem_filter] at ho
  have hk : |(cs - self.carrier) * self.ppm_to_rads / two_pi - o| >
      self.on_resonance_filter * (1/2) := of_decide_eq_true ho.2
  rw [hfil] at hk
  intro h0
  rw [h0] at hk
  norm_num at hk

theorem zero_width_filter_removes_resonance_witness :
    sampleProfile.on_resonance_filter = 0 ∧
    ∀ o ∈ (sampleProfile.filter_points 6 118).b1_offsets,
      (118 - sampleProfile.carrier) * sampleProfile.ppm_to_rads / 6 - o ≠
        0 :=
  ⟨rfl, zero_width_filter_removes_resonance sampleProfile 6 118 rfl⟩

/-- C7 counterexample: `Profile.__init__` performs no validation of the
measurement arrays.  A `measurements` mapping whose offsets, values and
errors have three different lengths (2, 1 and 3) is accepted: construction
succeeds and stores the mismatched arrays as given, instead of rejecting
them with an error. -/
theorem init_accepts_mismatched_lengths :
    (Profile.init 6 "G23N-H" mismatchedMeasurements sampleExpDetails 1
        []).map
      (fun p => (p.b1_offsets.length, p.val.length, p.err.length)) =
    Except.ok (2, 1, 3) := by rfl

/-- C7 (amended): Profile construction does not validate that the offsets,
measured-values and errors arrays have equal lengths.  Whenever every
required experimental detail is present, construction succeeds and stores
the three arrays exactly as given, whatever their lengths; only a missing
required experimental parameter is rejected at construction time (the
length mismatch propagates to the residual computation). -/
theorem init_stores_arrays_unvalidated (two_pi : ℚ) (name : String)
    (m : Measurements) (e : ExpDetails) (xi : ℚ) (mult : List (ℚ × ℚ))
    (k1 : e.h_larmor_frq.isSome = true) (k2 : e.temperature.isSome = true)
    (k3 : e.carrier.isSome = true) (k4 : e.b1_frq.isSome = true)
    (k5 : e.time_t1.isSome = true) (k6 : e.experiment_name.isSome = true) :
    (Profile.init two_pi name m e xi mult).map
      (fun p => (p.b1_offsets, p.val, p.err)) =
    Except.ok (m.b1_offsets, m.intensities, m.intensities_err) := by
  obtain ⟨a1, ha1⟩ := Option.isSome_iff_exists.mp k1
  obtain ⟨a2, ha2⟩ := Option.isSome_iff_exists.mp k2
  obtain ⟨a3, ha3⟩ := Option.isSome_iff_exists.mp k3
  obtain ⟨a4, ha4⟩ := Option.isSome_iff_exists.mp k4
  obtain ⟨a5, ha5⟩ := Option.isSome_iff_exists.mp k5
  obtain ⟨a6, ha6⟩ := Option.isSome_iff_exists.mp k6
  simp [Profile.init, check_par, ha1, ha2, ha3, ha4, ha5, ha6,
    Except.map, Except.instMonad, Except.bind, Except.pure, bind, pure]

theorem init_stores_arrays_unvalidated_witness :
    sampleExpDetails.h_larmor_frq.isSome = true ∧
    (Profile.init 6 "G23N-H" mismatchedMeasurements sampleExpDetails 1
        []).map
      (fun p => (p.b1_offsets, p.val, p.err)) =
    Except.ok (mismatchedMeasurements.b1_offsets,
      mismatchedMeasurements.intensities,
      mismatchedMeasurements.intensities_err) :=
  ⟨rfl, init_stores_arrays_unvalidated 6 "G23N-H" mismatchedMeasurements
    sampleExpDetails 1 [] rfl rfl rfl rfl rfl rfl⟩
